import Mathlib

/-!
Verification development for the Asana tool's core (src/main.py):
the cache/refresh engine (`AsanaClient.fetch_projects`), the hold-date
mini-parser (`AsanaClient.is_on_hold`), the filter pipeline
(`AsanaClient.filter_projects`), and the mutation helpers
(`AsanaClient.change_color`, `AsanaClient.add_note`).

Machine times are modelled as natural numbers of seconds; the remote
paginated source is modelled as a list of per-attempt outcomes; strings
are processed at the `List Char` level, mirroring the Python string and
`re` operations used by the source.
-/

namespace AsanaTool

/-- Character class of Python's regex `\s` and of `str.strip`, restricted to
the ASCII range in which the tool's hand-typed notes live. -/
def pySpace (c : Char) : Bool :=
  c = ' ' || c = '\t' || c = '\n' || c = '\r' || c = '\x0b' || c = '\x0c'

/-- Character class of Python's regex `\w` (ASCII range): letters, digits and
underscore. -/
def pyWord (c : Char) : Bool :=
  c.isAlpha || c.isDigit || c = '_'

/-- Python `str.upper` over the ASCII range. -/
def pyUpper (s : String) : String :=
  (s.data.map Char.toUpper).asString

/-- Python `str.lower` over the ASCII range. -/
def pyLower (s : String) : String :=
  (s.data.map Char.toLower).asString

/-- Numeric value of a string of decimal digits, as `int` reads the
all-digit tokens produced by the hold regex. -/
def digitsToNat (l : List Char) : Nat :=
  l.foldl (fun acc c => acc * 10 + (c.toNat - 48)) 0

/-- Python `str.split("/")` at the character level: splitting on every
slash, keeping empty pieces, with one empty piece for the empty string. -/
def splitSlash : List Char → List (List Char)
  | [] => [[]]
  | c :: rest =>
    if c = '/' then [] :: splitSlash rest
    else
      match splitSlash rest with
      | l :: ls => (c :: l) :: ls
      | [] => [[c]]

/-- Calendar date, as produced by `datetime.date`. -/
structure Date where
  year : Nat
  month : Nat
  day : Nat
deriving DecidableEq, Repr

/-- Python `date` comparison `a <= b` (lexicographic on year, month, day). -/
def dateLe (a b : Date) : Bool :=
  a.year < b.year ||
    (a.year = b.year && (a.month < b.month ||
      (a.month = b.month && a.day ≤ b.day)))

/-- Python `date` comparison `a < b` (lexicographic on year, month, day). -/
def dateLt (a b : Date) : Bool :=
  a.year < b.year ||
    (a.year = b.year && (a.month < b.month ||
      (a.month = b.month && a.day < b.day)))

/-- Gregorian leap-year rule used by Python's `datetime`. -/
def isLeap (y : Nat) : Bool :=
  y % 4 = 0 && (y % 100 ≠ 0 || y % 400 = 0)

/-- Number of days of month `m` in year `y` (Python `calendar` rule). -/
def daysInMonth (y m : Nat) : Nat :=
  if m = 2 then (if isLeap y then 29 else 28)
  else if m = 4 || m = 6 || m = 9 || m = 11 then 30
  else 31

/-- Zero-padded two-digit rendering used by `strftime` fields `%m`/`%d`. -/
def pad2 (n : Nat) : String :=
  if n < 10 then "0" ++ toString n else toString n

/-- Rendering of `datetime.now().strftime("%m/%d")` for a given date. -/
def mdString (d : Date) : String :=
  pad2 d.month ++ "/" ++ pad2 d.day

/-- Project record, the cached copy of the remote entity
(`opt_fields` of `fetch_projects` in src/main.py). A missing or `None`
notes field is represented by the empty string, which Python's
`project.get("notes")` truthiness test treats identically. -/
structure Project where
  gid : String
  name : String
  color : String
  notes : String
  created_at : String
  permalink_url : String
deriving DecidableEq, Repr

/-- Configuration store of `AsanaClient.config`: the three secrets, each
either absent (`none`) or a stored string (possibly empty). -/
structure Config where
  token : Option String
  workspace : Option String
  initials : Option String
deriving DecidableEq, Repr

/-- Python truthiness of a configuration value: `None` and `""` are falsy. -/
def truthy : Option String → Bool
  | none => false
  | some s => !s.data.isEmpty

/-- The `is_configured` property: `all(self.config.values())`. -/
def is_configured (c : Config) : Bool :=
  truthy c.token && truthy c.workspace && truthy c.initials

/-- Mutable state owned by `AsanaClient` that the cache engine reads and
writes: the snapshot and the time of the last successful fetch. -/
structure ClientState where
  config : Config
  cached_projects : Option (List Project)
  last_fetch_time : Option Nat
deriving DecidableEq, Repr

/-- The TTL `self.cache_duration = 300` (5 minutes), set once in
`__init__` and never modified. -/
def cache_duration : Nat := 300

/-- One attempt against the remote paginated listing: the projects yielded
by the pagination iterator before the attempt ended, and `none` when the
drain completed normally or `some status` when an `ApiException` with that
HTTP status was raised. -/
structure Attempt where
  yielded : List Project
  error : Option Nat
deriving DecidableEq, Repr

/-- The retry loop `for attempt in range(max_retries)` of `fetch_projects`
with `max_retries = 3` and `retry_delay` starting at 1 and doubling after
each 503 retry. Arguments: remaining attempt outcomes, current attempt
index, current `retry_delay`, accumulated `all_projects` (initialised once
before the loop, so items yielded by a failed attempt stay accumulated).
Returns the result (`some` drained list on success, `none` on failure),
the total induced backoff delay, and the number of remote calls made. -/
def runAttempts : List Attempt → Nat → Nat → List Project →
    Option (List Project) × Nat × Nat
  | [], _, _, _ => (none, 0, 0)
  | a :: rest, i, rd, acc =>
    let acc2 := acc ++ a.yielded
    match a.error with
    | none => (some acc2, 0, 1)
    | some s =>
      if s = 503 && i < 3 - 1 then
        let (r, d, c) := runAttempts rest (i + 1) (rd * 2) acc2
        (r, rd + d, c + 1)
      else (none, 0, 1)

/-- Observable outcome of one `fetch_projects` call: the returned value,
the client state after the call, the total induced backoff delay, and the
number of remote list calls performed. -/
structure FetchOutcome where
  result : Option (List Project)
  state : ClientState
  delay : Nat
  calls : Nat
deriving DecidableEq, Repr

/-- The cache engine `AsanaClient.fetch_projects` (src/main.py lines
173-230). `now` is `time.time()` captured at entry (`current_time`);
`attempts` is the behaviour of the remote source, one entry per API call
the loop would make. On the cache-hit fast path the cached snapshot is
returned with no remote call; otherwise, when unconfigured the call
returns `None`; otherwise the retry loop runs and on success the drained
list is installed as the new snapshot with `last_fetch_time = current_time`. -/
def fetch_projects (st : ClientState) (force : Bool) (now : Nat)
    (attempts : List Attempt) : FetchOutcome :=
  if !force && st.cached_projects.isSome && st.last_fetch_time.isSome &&
      decide (now - st.last_fetch_time.getD 0 < cache_duration) then
    { result := st.cached_projects, state := st, delay := 0, calls := 0 }
  else if !is_configured st.config then
    { result := none, state := st, delay := 0, calls := 0 }
  else
    match runAttempts attempts 0 1 [] with
    | (some ps, d, c) =>
      { result := some ps
        state := { st with cached_projects := some ps, last_fetch_time := some now }
        delay := d
        calls := c }
    | (none, d, c) => { result := none, state := st, delay := d, calls := c }

/-- The static Color Mapping table `self.colors` of `AsanaClient.__init__`:
user-facing name, internal API color name, display hex code. -/
def colorsTable : List (String × String × String) :=
  [("purple", "light-purple", "#CD95EA"),
   ("dark-purple", "dark-purple", "#9E97E7"),
   ("yellow", "dark-brown", "#F8DF72"),
   ("orange", "dark-orange", "#EC8D71"),
   ("blue", "light-blue", "#4573D2"),
   ("light-blue", "dark-teal", "#9EE7E3"),
   ("light-teal", "light-teal", "#4ECBC4"),
   ("coral", "light-red", "#FC979A"),
   ("hot-pink", "dark-pink", "#F26FB2"),
   ("light-pink", "light-pink", "#F9AAEF"),
   ("black", "light-warm-gray", "#6D6E6F")]

/-- Dictionary access `self.colors.get(name)["name"]`: the internal color
identifier for a user-facing name, or `none` for an unknown name. -/
def colorLookup (c : String) : Option String :=
  (colorsTable.find? (fun e => e.1 = c)).map (fun e => e.2.1)

/-- One entry of `self.page_configs`: a named, declarative view definition. -/
structure PageConfig where
  title : String
  colors : List String
  types : List String
  with_dates : Bool := false
  ifsp_only : Bool := false
  is_other : Bool := false
  users : List String := []
deriving DecidableEq, Repr

/-- The static view table `self.page_configs` of `AsanaClient.__init__`,
in source order. -/
def page_configs : List (String × PageConfig) :=
  [("andrew", { title := "Andrew", colors := ["blue"],
                types := ["list", "review"], users := ["AJP"] }),
   ("babynet", { title := "BabyNet", colors := ["orange"], types := ["list"] }),
   ("barbara", { title := "Barbara and New Referrals", colors := ["yellow"],
                 types := ["list"] }),
   ("deadlines", { title := "Deadlines", colors := ["purple", "dark-purple"],
                   types := ["list"], with_dates := true }),
   ("ifsp", { title := "IFSP Purples", colors := ["purple", "dark-purple"],
              types := ["list"], ifsp_only := true }),
   ("insurance", { title := "Insurance", colors := ["hot-pink", "light-pink"],
                   types := ["list"] }),
   ("needs-scheduling", { title := "Needs to Be Scheduled",
                          colors := ["purple", "dark-purple"], types := ["list"] }),
   ("questionnaires", { title := "Questionnaires to Be Sent", colors := ["coral"],
                        types := ["list", "review"] }),
   ("questionnaires-sent", { title := "Questionnaires Sent But Not Received",
                             colors := ["black"], types := ["list", "review"] }),
   ("other", { title := "Other Projects", colors := [], types := ["list"],
               is_other := true })]

/-- The `used_colors` set computed by the `is_other` branch of
`filter_projects`: the internal names of every color referenced by a
non-`is_other` view with a non-empty color list. Every name in
`page_configs` is present in `colorsTable`, so the lookups all succeed
(the source indexes `self.colors[color]` directly). -/
def used_colors : List String :=
  (page_configs.filter
      (fun kc => !kc.2.colors.isEmpty && !kc.2.is_other)).flatMap
    (fun kc => kc.2.colors.filterMap colorLookup)

/-- The literal `hold` of the hold regex, matched case-sensitively (the
pattern is compiled without `re.IGNORECASE`). -/
def stripHold : List Char → Option (List Char)
  | 'h' :: 'o' :: 'l' :: 'd' :: rest => some rest
  | _ => none

/-- The core of the hold regex
`hold\s+(\d{1,2}/\d{1,2}(?:/\d{2,4})?)\s+[/]*(\w+)[/]*`
matched at the head of `s`, with Python's backtracking semantics.
Returns the two captured groups (date token, initials token) and the
text remaining after the match. Each quantified piece here is followed
by a disjoint character class, so a maximal-munch `span` is equivalent to
the engine's greedy backtracking: a shorter alternative always leaves a
character that the continuation rejects. When the optional year part
`(?:/\d{2,4})?` fails, the engine falls back to the no-year alternative,
which then necessarily fails at the following `\s+` because the next
character is `/`; both behaviours end in the same rejection. -/
def matchHoldCore (s : List Char) : Option (String × String × List Char) :=
  match stripHold s with
  | none => none
  | some s1 =>
    let (ws1, s2) := s1.span pySpace
    if ws1.isEmpty then none else
    let (mo, s3) := s2.span Char.isDigit
    if mo.length = 0 || mo.length > 2 then none else
    match s3 with
    | '/' :: s4 =>
      let (da, s5) := s4.span Char.isDigit
      if da.length = 0 || da.length > 2 then none else
      let (dateChars, s6) :=
        match s5 with
        | '/' :: s5a =>
          let (yr, s5b) := s5a.span Char.isDigit
          if 2 ≤ yr.length && yr.length ≤ 4 then
            (mo ++ '/' :: da ++ '/' :: yr, s5b)
          else (mo ++ '/' :: da, s5)
        | _ => (mo ++ '/' :: da, s5)
      let (ws2, s7) := s6.span pySpace
      if ws2.isEmpty then none else
      let (_, s8) := s7.span (fun c => c = '/')
      let (ini, s9) := s8.span pyWord
      if ini.isEmpty then none else
      let (_, s10) := s9.span (fun c => c = '/')
      some (dateChars.asString, ini.asString, s10)
    | _ => none

/-- The optional leading group `(?:.*?\s)?` of the hold regex, attempted
(greedily, as Python tries an optional group before skipping it) at one
start position. The lazy `.*?` proposes end positions left to right: the
current character may serve as the closing `\s`, in which case the core is
tried right after it; on failure the character joins the dots of `.*?`,
which cannot absorb a newline, so the search stops at the first `\n` that
failed as a closing `\s`. -/
def holdPrefixed : List Char → Option (String × String × List Char)
  | [] => none
  | c :: rest =>
    if pySpace c then
      match matchHoldCore rest with
      | some r => some r
      | none => if c = '\n' then none else holdPrefixed rest
    else holdPrefixed rest

/-- One attempt of the full hold pattern at a given start position: the
optional prefixed alternative first (Python prefers matching an optional
group), then the bare core at the position itself. -/
def holdAttempt (s : List Char) : Option (String × String × List Char) :=
  match holdPrefixed s with
  | some r => some r
  | none => matchHoldCore s

/-- The scan of `hold_pattern.finditer(notes)`: attempt positions left to
right; after a match, continue from the end of the match (matches are
non-overlapping and never empty). The fuel argument bounds the recursion
by the length of the text; every step consumes at least one character, so
the initial fuel `s.length` is never exhausted. -/
def findHoldsAux : Nat → List Char → List (String × String)
  | 0, _ => []
  | _ + 1, [] => []
  | fuel + 1, c :: rest =>
    match holdAttempt (c :: rest) with
    | some (ds, ini, after) => (ds, ini) :: findHoldsAux fuel after
    | none => findHoldsAux fuel rest

/-- All `(date token, initials token)` group pairs yielded by
`hold_pattern.finditer(notes)`, in order. -/
def findHolds (s : List Char) : List (String × String) :=
  findHoldsAux s.length s

/-- Resolution of one date token, following the source's branches over
Python `strptime`. A token with one slash is parsed with `"%m/%d"`
(validated against the default year 1900, whose February has 28 days) and
the year is then replaced by the current year. A token with two slashes
is parsed with `"%m/%d/%Y"` — whose `%Y` field matches exactly four
digits — and on failure reparsed with `"%m/%d/%y"` — whose `%y` field
matches exactly two digits, mapped to 2000-2068 or 1969-1999 by the
century rule `year <= 68` — so a three-digit year fails both parses.
`strptime` accepts one- or two-digit month (1-12) and day (1-31) fields
and rejects a day that does not exist in the resolved month. -/
def parseHoldDate (todayYear : Nat) (ds : String) : Option Date :=
  match splitSlash ds.data with
  | [ms, dss] =>
    let m := digitsToNat ms
    let d := digitsToNat dss
    if 1 ≤ m && m ≤ 12 && 1 ≤ d && d ≤ daysInMonth 1900 m then
      some { year := todayYear, month := m, day := d }
    else none
  | [ms, dss, ys] =>
    let m := digitsToNat ms
    let d := digitsToNat dss
    if ys.length = 4 then
      let y := digitsToNat ys
      if 1 ≤ y && 1 ≤ m && m ≤ 12 && 1 ≤ d && d ≤ daysInMonth y m then
        some { year := y, month := m, day := d }
      else none
    else if ys.length = 2 then
      let y2 := digitsToNat ys
      let y := if y2 ≤ 68 then y2 + 2000 else y2 + 1900
      if 1 ≤ m && m ≤ 12 && 1 ≤ d && d ≤ daysInMonth y m then
        some { year := y, month := m, day := d }
      else none
    else none
  | _ => none

/-- The match loop of `is_on_hold`: for each regex match in order, skip it
when the initials differ case-insensitively from the user's; otherwise, if
the date token resolves, return whether the hold date is on or after
today; a token that fails to parse is skipped and the scan continues. -/
def holdScan (user : String) (today : Date) :
    List (String × String) → Bool
  | [] => false
  | (ds, ini) :: rest =>
    if pyUpper ini ≠ pyUpper user then holdScan user today rest
    else
      match parseHoldDate today.year ds with
      | some hd => dateLe today hd
      | none => holdScan user today rest

/-- The hold predicate `AsanaClient.is_on_hold` (src/main.py lines
232-277): false when the notes field is falsy or the configured initials
are falsy; otherwise scan the hold directives found in the notes. -/
def is_on_hold (cfgInitials : Option String) (p : Project) (today : Date) :
    Bool :=
  if p.notes.data.isEmpty then false
  else
    match cfgInitials with
    | none => false
    | some u =>
      if u.data.isEmpty then false
      else holdScan u today (findHolds p.notes.data)

/-- One position of `re.search(r"\bIFSP\b", text)`: the literal `IFSP` at
the head of the remaining text, with word-boundary checks against the
previous character (if any) and the following character (if any). -/
def ifspAt (prev : Option Char) : List Char → Bool
  | 'I' :: 'F' :: 'S' :: 'P' :: rest =>
    (match prev with
     | none => true
     | some c => !pyWord c) &&
    (match rest with
     | [] => true
     | c :: _ => !pyWord c)
  | _ => false

/-- The scan of `re.search(r"\bIFSP\b", text)` over all start positions. -/
def ifspSearch : Option Char → List Char → Bool
  | _, [] => false
  | prev, c :: rest => ifspAt prev (c :: rest) || ifspSearch (some c) rest

/-- The keyword predicate `AsanaClient.has_ifsp` (src/main.py lines
279-284): false on falsy notes, else a whole-word search for `IFSP` in
the uppercased notes. -/
def has_ifsp (p : Project) : Bool :=
  if p.notes.data.isEmpty then false
  else ifspSearch none (pyUpper p.notes).data

/-- All remainders of `s` after consuming between 1 and `n` leading
digits: the backtracking alternatives of the regex piece `\d{1,n}`. -/
def digitsAlts : Nat → List Char → List (List Char)
  | 0, _ => []
  | _ + 1, [] => []
  | n + 1, c :: rest =>
    if c.isDigit then rest :: digitsAlts n rest else []

/-- The date pattern `\d{1,2}.\d{1,2}(.\d{1,4})?` matched at the head of
`s` (some backtracking alternative succeeds). `.` matches any character
except a newline. Once `\d{1,2}.\d{1,2}` has matched, the trailing
optional group `(.\d{1,4})?` always admits its empty alternative, so it
imposes no further constraint on whether a match exists. -/
def dateMatchAt (s : List Char) : Bool :=
  (digitsAlts 2 s).any fun s1 =>
    match s1 with
    | x :: s2 => x ≠ '\n' && !(digitsAlts 2 s2).isEmpty
    | [] => false

/-- The scan of `re.search(r"\d{1,2}.\d{1,2}(.\d{1,4})?", name)` over all
start positions. -/
def dateSearch : List Char → Bool
  | [] => false
  | c :: rest => dateMatchAt (c :: rest) || dateSearch rest

/-- The filter pipeline `AsanaClient.filter_projects` (src/main.py lines
286-334). Returns `none` exactly when the source would raise a
`KeyError` from `self.colors[c]` on a color name absent from the Color
Mapping table (reachable only when the project list is non-empty, the
view is not the complement view and its color list is non-empty).
Otherwise returns the visible projects and the count of held projects,
applying in order: hold partition, complement-or-color selection, date
pattern requirement, keyword requirement. -/
def filter_projects (cfgInitials : Option String) (today : Date)
    (projects : List Project) (colors : List String)
    (with_dates : Bool) (ifsp_only : Bool) (is_other : Bool) :
    Option (List Project × Nat) :=
  if projects.isEmpty then some ([], 0)
  else
    let held_projects :=
      (projects.filter (fun p => is_on_hold cfgInitials p today)).length
    let filtered :=
      projects.filter (fun p => !is_on_hold cfgInitials p today)
    let afterColor : Option (List Project) :=
      if is_other then
        some (filtered.filter (fun p => !used_colors.contains p.color))
      else if !colors.isEmpty then
        match colors.mapM colorLookup with
        | none => none
        | some internal_colors =>
          some (filtered.filter (fun p => internal_colors.contains p.color))
      else some filtered
    afterColor.map fun f2 =>
      let f3 := if with_dates then f2.filter (fun p => dateSearch p.name.data)
                else f2
      let f4 := if ifsp_only then f3.filter has_ifsp else f3
      (f4, held_projects)

/-- A remote `update_project` call issued by a mutation, with the partial
field patch it carries. -/
inductive UpdateCall where
  | colorUpdate (internal : String)
  | notesUpdate (newNotes : String)
deriving DecidableEq, Repr

/-- The color mutation `AsanaClient.change_color` (src/main.py lines
368-385). `remoteError` is the outcome the remote source would give the
update call if one is issued. Returns the message the source returns
(`none` models the `None` of the unconfigured early return) together with
the list of update calls issued. -/
def change_color (configured : Bool) (remoteError : Option String)
    (new_color : String) : Option String × List UpdateCall :=
  if !configured then (none, [])
  else
    match colorLookup new_color with
    | none => (some ("Invalid color: " ++ new_color), [])
    | some internal =>
      match remoteError with
      | none =>
        (some ("Color changed to " ++ new_color ++ "."),
         [UpdateCall.colorUpdate internal])
      | some e =>
        (some ("Exception when calling ProjectsApi->update_project: " ++ e),
         [UpdateCall.colorUpdate internal])

/-- Python `str.split("\n")` at the character level: splitting on every
newline, keeping empty pieces, with `[""]` for the empty string. -/
def splitNl : List Char → List (List Char)
  | [] => [[]]
  | c :: rest =>
    if c = '\n' then [] :: splitNl rest
    else
      match splitNl rest with
      | l :: ls => (c :: l) :: ls
      | [] => [[c]]

/-- Python `"\n".join(lines)` at the character level. -/
def joinNl : List (List Char) → List Char
  | [] => []
  | [l] => l
  | l :: ls => l ++ '\n' :: joinNl ls

/-- The new notes text computed by `AsanaClient.add_note` (src/main.py
lines 387-415) from the freshly fetched current notes: the new line is
the current month/day, a space, the caller's text, and — when the
configured initials are truthy — the attribution suffix `" ///" +
initials`; it is inserted after the first blank line found among the
first five existing lines, or prepended at index 0 when none is blank. -/
def add_note_notes (cfgInitials : Option String) (today : Date)
    (current_notes : String) (text : String) : String :=
  let today_str := mdString today
  let line1 := today_str ++ " " ++ text
  let new_note :=
    match cfgInitials with
    | some ini => if ini.data.isEmpty then line1 else line1 ++ " ///" ++ ini
    | none => line1
  let notes_by_line := splitNl current_notes.data
  let blank_line_index :=
    (notes_by_line.take 5).findIdx? (fun l => l.all pySpace)
  let newLines :=
    match blank_line_index with
    | some i => notes_by_line.insertIdx (i + 1) new_note.data
    | none => notes_by_line.insertIdx 0 new_note.data
  (joinNl newLines).asString

/-- Modelled from the spec: the substring form of the date-pattern filter
as C9 words it — one or two digits, a single separator character
constrained only by `sepOk`, one or two digits, optionally another
separator character and one to four digits. Instantiating `sepOk` with
the always-true predicate gives the claim's "any character satisfies the
pattern" reading; instantiating it with "not a newline" gives the
behaviour of the source's `.` metacharacter. -/
def dateShape (sepOk : Char → Bool) (s : List Char) : Prop :=
  ∃ pre a x b t post,
    s = pre ++ a ++ x :: (b ++ t ++ post) ∧
    a.all Char.isDigit = true ∧ 1 ≤ a.length ∧ a.length ≤ 2 ∧
    sepOk x = true ∧
    b.all Char.isDigit = true ∧ 1 ≤ b.length ∧ b.length ≤ 2 ∧
    (t = [] ∨ ∃ y c, t = y :: c ∧ sepOk y = true ∧
      c.all Char.isDigit = true ∧ 1 ≤ c.length ∧ c.length ≤ 4)

theorem dateLe_of_dateLt {a b : Date} (h : dateLt a b = true) :
    dateLe a b = true := by
  simp only [dateLt, dateLe, Bool.or_eq_true, decide_eq_true_eq,
    Bool.and_eq_true] at h ⊢
  omega

theorem splitNl_ne_nil (s : List Char) : splitNl s ≠ [] := by
  induction s with
  | nil => simp [splitNl]
  | cons c rest ih =>
    simp only [splitNl]
    split
    · simp
    · cases h : splitNl rest with
      | nil => exact absurd h ih
      | cons l ls => simp

theorem splitNl_cons_of_ne {c : Char} (hc : ¬c = '\n') {s l0 : List Char}
    {ls0 : List (List Char)} (h0 : splitNl s = l0 :: ls0) :
    splitNl (c :: s) = (c :: l0) :: ls0 := by
  simp [splitNl, if_neg hc, h0]

theorem splitNl_append (a b : List Char) :
    splitNl (a ++ '\n' :: b) = splitNl a ++ splitNl b := by
  induction a with
  | nil => simp [splitNl]
  | cons c a2 ih =>
    by_cases hc : c = '\n'
    · subst hc
      simp [splitNl, ih]
    · obtain ⟨l0, ls0, h0⟩ := List.exists_cons_of_ne_nil (splitNl_ne_nil a2)
      have h1 : splitNl (a2 ++ '\n' :: b) = l0 :: (ls0 ++ splitNl b) := by
        rw [ih, h0]; simp
      rw [List.cons_append, splitNl_cons_of_ne hc h1,
        splitNl_cons_of_ne hc h0]
      simp

theorem not_newline_of_mem_splitNl {l : List Char} {s : List Char}
    (h : l ∈ splitNl s) : '\n' ∉ l := by
  induction s generalizing l with
  | nil =>
    simp only [splitNl, List.mem_singleton] at h
    subst h; simp
  | cons c rest ih =>
    simp only [splitNl] at h
    by_cases hc : c = '\n'
    · rw [if_pos hc] at h
      rcases List.mem_cons.mp h with rfl | h2
      · simp
      · exact ih h2
    · rw [if_neg hc] at h
      obtain ⟨l0, ls0, h0⟩ := List.exists_cons_of_ne_nil (splitNl_ne_nil rest)
      rw [h0] at h
      rcases List.mem_cons.mp h with rfl | h2
      · intro hmem
        rcases List.mem_cons.mp hmem with h3 | h3
        · exact hc h3.symm
        · exact ih (h0 ▸ List.mem_cons_self l0 ls0) h3
      · exact ih (h0 ▸ List.mem_cons_of_mem l0 h2)

theorem splitNl_eq_single {l : List Char} (h : '\n' ∉ l) :
    splitNl l = [l] := by
  induction l with
  | nil => simp [splitNl]
  | cons c l2 ih =>
    have hc : ¬c = '\n' := fun he => h (he ▸ List.mem_cons_self c l2)
    have h2 : '\n' ∉ l2 := fun hm => h (List.mem_cons_of_mem c hm)
    simp [splitNl, if_neg hc, ih h2]

theorem splitNl_joinNl {ls : List (List Char)} (h : ls ≠ []) :
    splitNl (joinNl ls) = ls.flatMap splitNl := by
  induction ls with
  | nil => exact absurd rfl h
  | cons l ls2 ih =>
    cases ls2 with
    | nil => simp [joinNl]
    | cons l2 ls3 =>
      have : joinNl (l :: l2 :: ls3) = l ++ '\n' :: joinNl (l2 :: ls3) := rfl
      rw [this, splitNl_append, ih (by simp)]
      simp

theorem flatMap_eq_self {f : List Char → List (List Char)}
    {l : List (List Char)} (h : ∀ x ∈ l, f x = [x]) : l.flatMap f = l := by
  induction l with
  | nil => simp
  | cons x l2 ih =>
    simp only [List.flatMap_cons, h x (List.mem_cons_self x l2),
      ih (fun y hy => h y (List.mem_cons_of_mem x hy))]
    simp

theorem insertIdx_eq_take_cons_drop {α : Type} {l : List α} {p : Nat}
    (x : α) (h : p ≤ l.length) :
    l.insertIdx p x = l.take p ++ x :: l.drop p := by
  induction p generalizing l with
  | zero => simp [List.insertIdx_zero]
  | succ p2 ih =>
    cases l with
    | nil => simp at h
    | cons a l2 =>
      simp only [List.insertIdx_succ_cons, List.take_succ_cons,
        List.drop_succ_cons, List.cons_append]
      rw [ih (Nat.le_of_succ_le_succ (by simpa using h))]

theorem digitsAlts2_not_isEmpty_iff {s : List Char} :
    (!(digitsAlts 2 s).isEmpty) = true ↔
      ∃ c r, s = c :: r ∧ c.isDigit = true := by
  cases s with
  | nil => simp [digitsAlts]
  | cons c r =>
    by_cases hc : c.isDigit
    · simp [digitsAlts, hc]
    · simp [digitsAlts, hc]

theorem mem_digitsAlts2 {s s1 : List Char} :
    s1 ∈ digitsAlts 2 s ↔
      ((∃ c, s = c :: s1 ∧ c.isDigit = true) ∨
       (∃ c d, s = c :: d :: s1 ∧ c.isDigit = true ∧ d.isDigit = true)) := by
  constructor
  · intro h
    cases s with
    | nil => simp [digitsAlts] at h
    | cons c r =>
      by_cases hc : c.isDigit
      · simp only [digitsAlts, if_pos hc] at h
        rcases List.mem_cons.mp h with rfl | h2
        · exact Or.inl ⟨c, rfl, hc⟩
        · cases r with
          | nil => simp [digitsAlts] at h2
          | cons d r2 =>
            by_cases hd : d.isDigit
            · simp only [digitsAlts, if_pos hd] at h2
              rcases List.mem_cons.mp h2 with rfl | h3
              · exact Or.inr ⟨c, d, rfl, hc, hd⟩
              · simp [digitsAlts] at h3
            · simp [digitsAlts, hd] at h2
      · simp [digitsAlts, hc] at h
  · rintro (⟨c, rfl, hc⟩ | ⟨c, d, rfl, hc, hd⟩)
    · simp [digitsAlts, hc]
    · simp [digitsAlts, hc, hd]

theorem dateMatchAt_iff {s : List Char} :
    dateMatchAt s = true ↔
      ∃ a x b r, s = a ++ x :: b :: r ∧ a.all Char.isDigit = true ∧
        1 ≤ a.length ∧ a.length ≤ 2 ∧ x ≠ '\n' ∧ b.isDigit = true := by
  constructor
  · intro h
    simp only [dateMatchAt, List.any_eq_true] at h
    obtain ⟨s1, hmem, hmatch⟩ := h
    cases s1 with
    | nil => simp at hmatch
    | cons x s2 =>
      simp only [Bool.and_eq_true, decide_eq_true_eq] at hmatch
      obtain ⟨hx, hne⟩ := hmatch
      obtain ⟨b, r, rfl, hb⟩ := digitsAlts2_not_isEmpty_iff.mp hne
      rcases mem_digitsAlts2.mp hmem with ⟨c, rfl, hc⟩ | ⟨c, d, rfl, hc, hd⟩
      · exact ⟨[c], x, b, r, rfl, by simp [hc], by simp, by simp, hx, hb⟩
      · exact ⟨[c, d], x, b, r, rfl, by simp [hc, hd], by simp, by simp,
          hx, hb⟩
  · rintro ⟨a, x, b, r, rfl, hall, hlen1, hlen2, hx, hb⟩
    simp only [dateMatchAt, List.any_eq_true]
    refine ⟨x :: b :: r, ?_, ?_⟩
    · apply mem_digitsAlts2.mpr
      match a, hlen1, hlen2 with
      | [c], _, _ =>
        exact Or.inl ⟨c, rfl, by simpa using hall⟩
      | [c, d], _, _ =>
        have := List.all_eq_true.mp hall
        exact Or.inr ⟨c, d, rfl, by simpa using this c (by simp),
          by simpa using this d (by simp)⟩
    · simp only [Bool.and_eq_true, decide_eq_true_eq]
      refine ⟨hx, ?_⟩
      apply digitsAlts2_not_isEmpty_iff.mpr
      exact ⟨b, r, rfl, hb⟩

theorem dateSearch_suffix {s2 : List Char} (s1 : List Char)
    (h : dateMatchAt s2 = true) (hne : s2 ≠ []) :
    dateSearch (s1 ++ s2) = true := by
  induction s1 with
  | nil =>
    obtain ⟨c, r, rfl⟩ := List.exists_cons_of_ne_nil hne
    simp [dateSearch, h]
  | cons c s12 ih =>
    obtain ⟨d, r, hdr⟩ : ∃ d r, s12 ++ s2 = d :: r := by
      obtain ⟨c2, r2, rfl⟩ := List.exists_cons_of_ne_nil hne
      cases s12 with
      | nil => exact ⟨c2, r2, rfl⟩
      | cons e s13 => exact ⟨e, s13 ++ c2 :: r2, rfl⟩
    rw [List.cons_append, hdr, dateSearch, ← hdr, ih]
    simp

theorem dateSearch_iff_shape {s : List Char} :
    dateSearch s = true ↔ dateShape (fun c => c ≠ '\n') s := by
  constructor
  · intro h
    induction s with
    | nil => simp [dateSearch] at h
    | cons c rest ih =>
      simp only [dateSearch, Bool.or_eq_true] at h
      rcases h with h | h
      · obtain ⟨a, x, b, r, heq, hall, hlen1, hlen2, hx, hb⟩ :=
          dateMatchAt_iff.mp h
        exact ⟨[], a, x, [b], [], r, by simpa using heq, hall, hlen1, hlen2,
          by simpa using hx, by simp [hb], by simp, by simp, Or.inl rfl⟩
      · obtain ⟨pre, a, x, b, t, post, heq, rest_props⟩ := ih h
        exact ⟨c :: pre, a, x, b, t, post, by simp [heq], rest_props⟩
  · rintro ⟨pre, a, x, b, t, post, rfl, hall, hlen1, hlen2, hx, hball,
      hblen1, hblen2, ht⟩
    have hbne : b ≠ [] := List.ne_nil_of_length_pos (by omega)
    obtain ⟨b0, b2, rfl⟩ := List.exists_cons_of_ne_nil hbne
    have hmatch : dateMatchAt (a ++ x :: b0 :: (b2 ++ t ++ post)) = true := by
      apply dateMatchAt_iff.mpr
      refine ⟨a, x, b0, b2 ++ t ++ post, by simp, hall, hlen1, hlen2,
        by simpa using hx, ?_⟩
      simpa using List.all_eq_true.mp hball b0 (by simp)
    have heq2 : pre ++ a ++ x :: (b0 :: b2 ++ t ++ post) =
        pre ++ (a ++ x :: b0 :: (b2 ++ t ++ post)) := by simp
    rw [heq2]
    apply dateSearch_suffix
    · exact hmatch
    · simp

/-- Sample project used by concrete witnesses. -/
def pSample : Project :=
  { gid := "1000", name := "Smith, John 3/4", color := "light-blue",
    notes := "", created_at := "2024-01-02", permalink_url := "https://a/1000" }

/-- Fully populated sample configuration used by concrete witnesses. -/
def cfgSample : Config :=
  { token := some "tok", workspace := some "12345", initials := some "AJP" }

/-- Sample client state with a cached snapshot fetched at time 100. -/
def stSample : ClientState :=
  { config := cfgSample, cached_projects := some [pSample],
    last_fetch_time := some 100 }

/-- Sample client state with an empty cache. -/
def stEmpty : ClientState :=
  { config := cfgSample, cached_projects := none, last_fetch_time := none }

/-- C1: with `force = false`, a cached snapshot present and strictly less
than the 300-second TTL elapsed since the last successful fetch,
`fetch_projects` returns the prior cached snapshot itself, performs no
remote call, induces no delay, and leaves the whole client state
(snapshot and `last_fetch_time`) unmodified — for any behaviour of the
remote source. -/
theorem fetch_cache_hit (st : ClientState) (now t : Nat) (c : List Project)
    (attempts : List Attempt)
    (h1 : st.cached_projects = some c) (h2 : st.last_fetch_time = some t)
    (h3 : now - t < cache_duration) :
    fetch_projects st false now attempts =
      { result := some c, state := st, delay := 0, calls := 0 } := by
  simp [fetch_projects, h1, h2, h3]

/-- Witness for C1 at a concrete state: cached at time 100, queried at
time 200 with TTL 300. -/
theorem fetch_cache_hit_witness :
    fetch_projects stSample false 200 [] =
      { result := some [pSample], state := stSample, delay := 0,
        calls := 0 } :=
  fetch_cache_hit stSample 200 100 [pSample] [] rfl rfl (by decide)

/-- C2: on a forced refresh of a configured client, a remote source that
yields two service-unavailable (503) errors and then a success produces a
successful fetch whose total induced backoff delay is 1 + 2 time units
(three calls in total); a remote source that yields three consecutive 503
errors produces a failed fetch that leaves the client state — in
particular any previously cached snapshot and its timestamp — unchanged. -/
theorem fetch_retry_backoff (st : ClientState) (now : Nat)
    (ps : List Project) (hcfg : is_configured st.config = true) :
    fetch_projects st true now
        [{ yielded := [], error := some 503 },
         { yielded := [], error := some 503 },
         { yielded := ps, error := none }] =
      { result := some ps,
        state := { st with cached_projects := some ps,
                           last_fetch_time := some now },
        delay := 1 + 2, calls := 3 } ∧
    fetch_projects st true now
        [{ yielded := [], error := some 503 },
         { yielded := [], error := some 503 },
         { yielded := [], error := some 503 }] =
      { result := none, state := st, delay := 1 + 2, calls := 3 } := by
  constructor <;> simp [fetch_projects, hcfg, runAttempts]

/-- Witness for C2 at a concrete configured state with an empty cache. -/
theorem fetch_retry_backoff_witness :
    fetch_projects stEmpty true 500
        [{ yielded := [], error := some 503 },
         { yielded := [], error := some 503 },
         { yielded := [pSample], error := none }] =
      { result := some [pSample],
        state := { config := cfgSample, cached_projects := some [pSample],
                   last_fetch_time := some 500 },
        delay := 1 + 2, calls := 3 } ∧
    fetch_projects stEmpty true 500
        [{ yielded := [], error := some 503 },
         { yielded := [], error := some 503 },
         { yielded := [], error := some 503 }] =
      { result := none, state := stEmpty, delay := 1 + 2, calls := 3 } :=
  fetch_retry_backoff stEmpty 500 [pSample] (by decide)

/-- C6 (amended): on every successful `force = true` refresh the
accumulated drained sequence is installed atomically — the new snapshot
and `last_fetch_time` are written together, and a failed refresh leaves
the state untouched, so no partially drained snapshot is ever observable —
but `last_fetch_time` records the time captured at the entry of the call
(`current_time`), not the later moment at which the snapshot is installed
after the drain and any backoff. -/
theorem fetch_install_atomic (st : ClientState) (now : Nat)
    (attempts : List Attempt) :
    (∀ ps, (fetch_projects st true now attempts).result = some ps →
      (fetch_projects st true now attempts).state =
        { st with cached_projects := some ps,
                  last_fetch_time := some now }) ∧
    ((fetch_projects st true now attempts).result = none →
      (fetch_projects st true now attempts).state = st) := by
  by_cases hcfg : is_configured st.config
  · rcases hrun : runAttempts attempts 0 1 [] with ⟨r, d, cl⟩
    cases r with
    | some ps2 =>
      constructor
      · intro ps hps
        simp only [fetch_projects, hcfg, hrun] at hps ⊢
        simp only [Bool.not_true, Bool.false_and, if_false] at hps ⊢
        simp at hps
        simp [hps]
      · intro hnone
        simp only [fetch_projects, hcfg, hrun] at hnone
        simp at hnone
    | none =>
      constructor
      · intro ps hps
        simp only [fetch_projects, hcfg, hrun] at hps
        simp at hps
      · intro hnone
        simp [fetch_projects, hcfg, hrun]
  · constructor
    · intro ps hps
      simp [fetch_projects, hcfg] at hps
    · intro hnone
      simp [fetch_projects, hcfg]

/-- Witness for C6 (amended) at a concrete successful refresh. -/
theorem fetch_install_atomic_witness :
    (fetch_projects stEmpty true 7 [{ yielded := [pSample], error := none }]).state =
      { stEmpty with cached_projects := some [pSample],
                     last_fetch_time := some 7 } :=
  (fetch_install_atomic stEmpty 7 [{ yielded := [pSample], error := none }]).1
    [pSample] (by decide)

/-- C6 counterexample: a forced refresh that suffers one transient 503
failure before succeeding induces a backoff delay of 1, so the snapshot is
installed no earlier than entry time + 1; yet `last_fetch_time` is
recorded as the entry time 1000, an earlier time — refuting the claim
that `fetched_at` is the time at which the snapshot is installed after
the drain. -/
theorem fetch_time_counterexample :
    (fetch_projects stEmpty true 1000
        [{ yielded := [], error := some 503 },
         { yielded := [pSample], error := none }]).result = some [pSample] ∧
    (fetch_projects stEmpty true 1000
        [{ yielded := [], error := some 503 },
         { yielded := [pSample], error := none }]).delay = 1 ∧
    (fetch_projects stEmpty true 1000
        [{ yielded := [], error := some 503 },
         { yielded := [pSample], error := none }]).state.last_fetch_time =
      some 1000 ∧
    some (1000 +
        (fetch_projects stEmpty true 1000
          [{ yielded := [], error := some 503 },
           { yielded := [pSample], error := none }]).delay) ≠
      (fetch_projects stEmpty true 1000
        [{ yielded := [], error := some 503 },
         { yielded := [pSample], error := none }]).state.last_fetch_time := by
  refine ⟨by decide, by decide, by decide, by decide⟩

/-- Project whose notes hold a lowercase hold directive for AJP. -/
def projC3 : Project :=
  { gid := "371", name := "Jones, Amy", color := "light-blue",
    notes := "hold 01/31/30 AJP", created_at := "2024-01-01",
    permalink_url := "https://a/371" }

/-- The same project with the word `hold` uppercased. -/
def projHoldUpper : Project :=
  { projC3 with notes := "HOLD 01/31/30 AJP" }

/-- The same project with the initials token lowercased in the notes. -/
def projHoldLowerIni : Project :=
  { projC3 with notes := "hold 01/31/30 ajp" }

/-- A project with a malformed hold directive followed, after a blank
line, by a well-formed one. -/
def projHoldMulti : Project :=
  { projC3 with notes := "hold 13/45/30 AJP\n\nhold 01/31/30 AJP" }

/-- Helper: filtering a singleton list containing one held project yields
no visible project and a held count of one, provided the color stage does
not raise (the view is the complement view, has no colors, or has only
colors present in the mapping table). -/
theorem filter_single_held (ini : Option String) (today : Date)
    (p : Project) (colors : List String) (wd io other : Bool)
    (hp : is_on_hold ini p today = true)
    (hok : other = true ∨ colors = [] ∨ (colors.mapM colorLookup).isSome) :
    filter_projects ini today [p] colors wd io other = some ([], 1) := by
  have hfil : List.filter (fun q => is_on_hold ini q today) [p] = [p] := by
    simp [hp]
  have hfil2 : List.filter (fun q => !is_on_hold ini q today) [p] = [] := by
    simp [hp]
  unfold filter_projects
  simp only [List.isEmpty_cons, Bool.false_eq_true, if_false, hfil, hfil2,
    List.length_cons, List.length_nil, List.filter_nil]
  rcases hok with rfl | rfl | hsome
  · simp
  · simp
  · obtain ⟨ic, hic⟩ := Option.isSome_iff_exists.mp hsome
    cases other
    · by_cases hcol : colors.isEmpty = true
      · simp [hcol]
      · simp only [Bool.false_eq_true, if_false, hcol, hic, Bool.not_false,
          if_true, Option.map_some, List.filter_nil]
        simp
    · simp

/-- C3: the project with notes `"hold 01/31/30 AJP"` evaluated with viewer
initials `"AJP"` is held on every `today` lexicographically before
2030-01-31 and is excluded from the visible output of every configured
view with a held count of 1; evaluated with viewer initials `"XYZ"` it is
never held. -/
theorem hold_exclusion (today : Date)
    (h : dateLt today { year := 2030, month := 1, day := 31 } = true) :
    is_on_hold (some "AJP") projC3 today = true ∧
    (∀ t2 : Date, is_on_hold (some "XYZ") projC3 t2 = false) ∧
    (∀ pc ∈ page_configs,
      filter_projects (some "AJP") today [projC3] pc.2.colors
        pc.2.with_dates pc.2.ifsp_only pc.2.is_other = some ([], 1)) := by
  have hps : parseHoldDate today.year "01/31/30" =
      some { year := 2030, month := 1, day := 31 } := rfl
  have hfh : findHolds projC3.notes.data = [("01/31/30", "AJP")] := by decide
  have hstep : is_on_hold (some "AJP") projC3 today =
      holdScan "AJP" today (findHolds projC3.notes.data) := by
    show (if projC3.notes.data.isEmpty = true then false
          else if ("AJP" : String).data.isEmpty = true then false
          else holdScan "AJP" today (findHolds projC3.notes.data)) = _
    rw [if_neg (by decide), if_neg (by decide)]
  have h1 : is_on_hold (some "AJP") projC3 today = true := by
    rw [hstep, hfh]
    show (if pyUpper "AJP" ≠ pyUpper "AJP" then holdScan "AJP" today []
          else match parseHoldDate today.year "01/31/30" with
               | some hd => dateLe today hd
               | none => holdScan "AJP" today []) = true
    rw [if_neg (by decide), hps]
    exact dateLe_of_dateLt h
  have h2 : ∀ t2 : Date, is_on_hold (some "XYZ") projC3 t2 = false := by
    intro t2
    have hstep2 : is_on_hold (some "XYZ") projC3 t2 =
        holdScan "XYZ" t2 (findHolds projC3.notes.data) := by
      show (if projC3.notes.data.isEmpty = true then false
            else if ("XYZ" : String).data.isEmpty = true then false
            else holdScan "XYZ" t2 (findHolds projC3.notes.data)) = _
      rw [if_neg (by decide), if_neg (by decide)]
    rw [hstep2, hfh]
    show (if pyUpper "AJP" ≠ pyUpper "XYZ" then holdScan "XYZ" t2 []
          else match parseHoldDate t2.year "01/31/30" with
               | some hd => dateLe t2 hd
               | none => holdScan "XYZ" t2 []) = false
    rw [if_pos (by decide)]
    rfl
  refine ⟨h1, h2, ?_⟩
  intro pc hpc
  refine filter_single_held (some "AJP") today projC3 pc.2.colors
    pc.2.with_dates pc.2.ifsp_only pc.2.is_other h1 ?_
  fin_cases hpc <;> decide

/-- Witness for C3 at today = 2026-10-12. -/
theorem hold_exclusion_witness :
    is_on_hold (some "AJP") projC3
      { year := 2026, month := 10, day := 12 } = true :=
  (hold_exclusion { year := 2026, month := 10, day := 12 } (by decide)).1

/-- C4 counterexample: two notes texts differing only in the letter case
of the word `hold` (their lowercasings agree) give different results from
the hold predicate, because the pattern is compiled without
`re.IGNORECASE`: the uppercase variant matches nothing. -/
theorem hold_case_counterexample :
    pyLower projHoldUpper.notes = pyLower projC3.notes ∧
    is_on_hold (some "AJP") projC3
      { year := 2026, month := 10, day := 12 } = true ∧
    is_on_hold (some "AJP") projHoldUpper
      { year := 2026, month := 10, day := 12 } = false := by
  refine ⟨by decide, by decide, by decide⟩

/-- C4 (amended): the hold directive grammar — the word `hold`, spaces, a
date token, spaces, optional slashes, an initials token, optional
slashes — is matched case-SENSITIVELY for the literal `hold` (the scanner
finds no directive in an uppercase variant), while the initials token is
compared case-insensitively; matches are scanned left to right over one
or more occurrences, a match with unparseable date being skipped in
favour of a later one. -/
theorem hold_grammar_amended :
    findHolds projC3.notes.data = [("01/31/30", "AJP")] ∧
    findHolds projHoldUpper.notes.data = [] ∧
    findHolds projHoldMulti.notes.data =
      [("13/45/30", "AJP"), ("01/31/30", "AJP")] ∧
    is_on_hold (some "AJP") projHoldLowerIni
      { year := 2026, month := 10, day := 12 } = true ∧
    is_on_hold (some "AJP") projHoldMulti
      { year := 2026, month := 10, day := 12 } = true := by
  refine ⟨by decide, by decide, by decide, by decide, by decide⟩

/-- C10: with absent or empty configured initials the hold predicate is
false for every project and every date, so every filter call reports a
held count of zero and the hold stage excludes no project. -/
theorem no_initials_no_hold (ini : Option String)
    (hini : ini = none ∨ ini = some "") :
    (∀ p today, is_on_hold ini p today = false) ∧
    (∀ today projects colors wd io other r hc,
      filter_projects ini today projects colors wd io other =
        some (r, hc) → hc = 0) ∧
    (∀ today (projects : List Project),
      projects.filter (fun p => !is_on_hold ini p today) = projects) := by
  have hfalse : ∀ p today, is_on_hold ini p today = false := by
    intro p today
    rcases hini with rfl | rfl
    · simp [is_on_hold]
    · unfold is_on_hold
      split
      · rfl
      · show (if ("" : String).data.isEmpty = true then false
              else holdScan "" today (findHolds p.notes.data)) = false
        rw [if_pos (by decide)]
  refine ⟨hfalse, ?_, ?_⟩
  · intro today projects colors wd io other r hc heq
    unfold filter_projects at heq
    by_cases hemp : projects.isEmpty = true
    · rw [if_pos hemp] at heq
      simp only [Option.some_inj, Prod.mk.injEq] at heq
      exact heq.2.symm
    · rw [if_neg hemp] at heq
      simp only [hfalse, List.filter_false, List.length_nil] at heq
      obtain ⟨f2, hx2, hf2⟩ := Option.map_eq_some'.mp heq
      have := congrArg Prod.snd hf2
      exact this.symm
  · intro today projects
    simp [hfalse]

/-- Witness for C10 with `ini = none`. -/
theorem no_initials_no_hold_witness :
    is_on_hold none pSample { year := 2026, month := 1, day := 1 } = false :=
  (no_initials_no_hold none (Or.inl rfl)).1 pSample
    { year := 2026, month := 1, day := 1 }

/-- C8: when configured, a color change with a user-facing name absent
from the Color Mapping table returns the invalid-color error and issues
no remote update call; a name present in the table is mapped to its
internal identifier and exactly one update call carrying that identifier
is issued, whatever the remote outcome. -/
theorem change_color_mapping (name : String) (remoteError : Option String) :
    (colorLookup name = none →
      change_color true remoteError name =
        (some ("Invalid color: " ++ name), [])) ∧
    (∀ internal, colorLookup name = some internal →
      (change_color true remoteError name).2 =
        [UpdateCall.colorUpdate internal]) := by
  constructor
  · intro h
    simp [change_color, h]
  · intro internal h
    cases remoteError <;> simp [change_color, h]

/-- Witness for C8: `magenta` is rejected with no update call, `purple`
issues exactly one update call carrying `light-purple`. -/
theorem change_color_mapping_witness :
    change_color true none "magenta" =
      (some ("Invalid color: " ++ "magenta"), []) ∧
    (change_color true none "purple").2 =
      [UpdateCall.colorUpdate "light-purple"] :=
  ⟨(change_color_mapping "magenta" none).1 (by decide),
   (change_color_mapping "purple" none).2 "light-purple" (by decide)⟩

/-- C5: every successful filter call returns the held count computed by
partitioning the snapshot with the hold predicate — even when the view
has no hold-related options — and the visible sequence is obtained from
the not-held partition by applying, in this fixed order, the
complement-or-color selection, then the date-pattern requirement, then
the keyword requirement, each stage a filter of the previous stage's
output and hence a subsequence of it in snapshot order. -/
theorem filter_pipeline_stages (ini : Option String) (today : Date)
    (projects : List Project) (colors : List String)
    (wd io other : Bool) (r : List Project) (hc : Nat)
    (heq : filter_projects ini today projects colors wd io other =
      some (r, hc)) :
    hc = (projects.filter (fun p => is_on_hold ini p today)).length ∧
    ∃ s1 s2 s3,
      s1 = projects.filter (fun p => !is_on_hold ini p today) ∧
      (other = true →
        s2 = s1.filter (fun p => !used_colors.contains p.color)) ∧
      (other = false → colors.isEmpty = false → projects.isEmpty = false →
        ∃ ic, colors.mapM colorLookup = some ic ∧
          s2 = s1.filter (fun p => ic.contains p.color)) ∧
      (other = false → colors.isEmpty = true → s2 = s1) ∧
      (wd = true → s3 = s2.filter (fun p => dateSearch p.name.data)) ∧
      (wd = false → s3 = s2) ∧
      (io = true → r = s3.filter has_ifsp) ∧
      (io = false → r = s3) ∧
      s2.Sublist s1 ∧ s3.Sublist s2 ∧ r.Sublist s3 := by
  unfold filter_projects at heq
  by_cases hemp : projects.isEmpty = true
  · rw [if_pos hemp] at heq
    simp only [Option.some_inj, Prod.mk.injEq] at heq
    obtain ⟨hr, hhc⟩ := heq
    have hnil : projects = [] := List.isEmpty_iff.mp hemp
    subst hnil
    subst hr
    refine ⟨by simpa using hhc.symm, [], [], [], by simp, ?_⟩
    cases wd <;> cases io <;>
      simp_all [List.Sublist.refl]
  · rw [if_neg hemp] at heq
    obtain ⟨f2, hx2, hf2⟩ := Option.map_eq_some'.mp heq
    have hhc : hc = (projects.filter
        (fun p => is_on_hold ini p today)).length :=
      (congrArg Prod.snd hf2).symm
    have hr : r = (if io = true then
        List.filter has_ifsp
          (if wd = true then
            List.filter (fun p => dateSearch p.name.data) f2 else f2)
        else if wd = true then
          List.filter (fun p => dateSearch p.name.data) f2 else f2) :=
      (congrArg Prod.fst hf2).symm
    refine ⟨hhc, projects.filter (fun p => !is_on_hold ini p today), f2,
      (if wd = true then
        List.filter (fun p => dateSearch p.name.data) f2 else f2),
      rfl, ?_, ?_, ?_, ?_, ?_, ?_, ?_, ?_, ?_, ?_⟩
    · intro hother
      rw [hother] at hx2
      simp only [eq_self_iff_true, if_true, Option.some_inj] at hx2
      exact hx2.symm
    · intro hother hcol hpe
      rw [hother, hcol] at hx2
      simp only [Bool.false_eq_true, if_false, Bool.not_false, if_true] at hx2
      rcases hmap : colors.mapM colorLookup with _ | ic
      · rw [hmap] at hx2
        simp at hx2
      · rw [hmap] at hx2
        simp only [Option.some_inj] at hx2
        exact ⟨ic, rfl, hx2.symm⟩
    · intro hother hcol
      rw [hother, hcol] at hx2
      simp only [Bool.false_eq_true, if_false, Bool.not_true,
        Option.some_inj] at hx2
      exact hx2.symm
    · intro hwd
      rw [hwd]
      simp
    · intro hwd
      rw [hwd]
      simp
    · intro hio
      rw [hr, hio]
      simp
    · intro hio
      rw [hr, hio]
      simp
    · -- f2 is a filter of the not-held stage in every branch
      rcases hother : other with _ | _
      · rw [hother] at hx2
        simp only [Bool.false_eq_true, if_false] at hx2
        by_cases hcol : colors.isEmpty = true
        · rw [hcol] at hx2
          simp only [Bool.not_true, Bool.false_eq_true, if_false,
            Option.some_inj] at hx2
          rw [← hx2]
        · rw [Bool.not_eq_true] at hcol
          rw [hcol] at hx2
          simp only [Bool.not_false, if_true] at hx2
          rcases hmap : colors.mapM colorLookup with _ | ic
          · rw [hmap] at hx2
            simp at hx2
          · rw [hmap] at hx2
            simp only [Option.some_inj] at hx2
            rw [← hx2]
            exact List.filter_sublist _
      · rw [hother] at hx2
        simp only [eq_self_iff_true, if_true, Option.some_inj] at hx2
        rw [← hx2]
        exact List.filter_sublist _
    · cases wd <;> simp [List.filter_sublist, List.Sublist.refl]
    · rw [hr]
      cases io <;> simp [List.filter_sublist, List.Sublist.refl]

/-- Witness for C5: the held count reported for an unheld sample project
equals the length of the held partition. -/
theorem filter_pipeline_stages_witness :
    (0 : Nat) = (List.filter
      (fun p => is_on_hold (some "AJP") p
        { year := 2026, month := 1, day := 1 }) [pSample]).length :=
  (filter_pipeline_stages (some "AJP") { year := 2026, month := 1, day := 1 }
    [pSample] ["blue"] false false false [pSample] 0 (by decide)).1

/-- Project whose name consists of a digit, a newline and a digit. -/
def projC9 : Project :=
  { gid := "9", name := "1\n2", color := "light-blue", notes := "",
    created_at := "", permalink_url := "" }

/-- C9 counterexample: the name `"1\n2"` contains a substring of the
claim's form — one digit, one separator character, one digit — under the
claim's "any character satisfies the pattern" reading of the separator,
yet the date-pattern search rejects it (the `.` metacharacter does not
match a newline) and a date-requiring view drops the project. -/
theorem date_pattern_counterexample :
    dateShape (fun _ => true) "1\n2".data ∧
    dateSearch "1\n2".data = false ∧
    filter_projects none { year := 2026, month := 1, day := 1 } [projC9]
      [] true false false = some ([], 0) := by
  refine ⟨⟨[], ['1'], '\n', ['2'], [], [], by decide, by decide, by decide,
    by decide, by decide, by decide, by decide, by decide, Or.inl rfl⟩,
    by decide, by decide⟩

/-- C9 (amended): when a view requires a date pattern, a project is kept
from the previous stage's output precisely when its name contains a
substring of the form one or two digits, a single separator character
that is not a newline (any other character satisfies the pattern), one or
two digits, and optionally another such separator character followed by
one to four digits; in particular `"Smith, John 3/4"` matches and
`"Smith, John"` does not. -/
theorem date_pattern_amended :
    (∀ s : List Char, dateSearch s = true ↔
      dateShape (fun c => c ≠ '\n') s) ∧
    dateSearch "Smith, John 3/4".data = true ∧
    dateSearch "Smith, John".data = false ∧
    (∀ ini today projects colors io other r hc,
      filter_projects ini today projects colors true io other =
        some (r, hc) →
      ∃ s2 : List Project, r = if io = true
        then (s2.filter (fun p => dateSearch p.name.data)).filter has_ifsp
        else s2.filter (fun p => dateSearch p.name.data)) := by
  refine ⟨fun s => dateSearch_iff_shape, by decide, by decide, ?_⟩
  intro ini today projects colors io other r hc heq
  unfold filter_projects at heq
  by_cases hemp : projects.isEmpty = true
  · rw [if_pos hemp] at heq
    simp only [Option.some_inj, Prod.mk.injEq] at heq
    refine ⟨[], ?_⟩
    rw [← heq.1]
    cases io <;> simp
  · rw [if_neg hemp] at heq
    obtain ⟨f2, hx2, hf2⟩ := Option.map_eq_some'.mp heq
    have hr := congrArg Prod.fst hf2
    simp only [if_true, eq_self_iff_true] at hr
    refine ⟨f2, ?_⟩
    rw [← hr]

/-- Witness for C9 (amended): a view requiring the date pattern keeps the
sample project whose name embeds `3/4`. -/
theorem date_pattern_amended_witness :
    ∃ s2 : List Project, [pSample] = if false = true
      then (s2.filter (fun p => dateSearch p.name.data)).filter has_ifsp
      else s2.filter (fun p => dateSearch p.name.data) :=
  date_pattern_amended.2.2.2 none { year := 2026, month := 1, day := 1 }
    [pSample] [] false false [pSample] 0 (by decide)

theorem data_asString (l : List Char) : (l.asString).data = l := rfl

theorem flatMap_splitNl_sub {notes : List Char} {M : List (List Char)}
    (hsub : M ⊆ splitNl notes) : M.flatMap splitNl = M :=
  flatMap_eq_self
    (fun _ hx => splitNl_eq_single (not_newline_of_mem_splitNl (hsub hx)))

/-- C7: for every existing notes text and note text, the new line is the
current month/day, a space, the caller's text, and the attribution suffix
exactly when initials are configured and non-empty; the resulting notes,
read as lines, are the existing lines with the new text inserted
immediately after the first blank line among the first five lines when
one exists, and at the very top otherwise — all other existing lines
preserved in order. -/
theorem add_note_insertion (ini : Option String) (today : Date)
    (notes text : String) :
    ∃ p : Nat,
      splitNl (add_note_notes ini today notes text).data =
        (splitNl notes.data).take p ++
          splitNl (match ini with
            | some s =>
              if s.data.isEmpty then mdString today ++ " " ++ text
              else mdString today ++ " " ++ text ++ " ///" ++ s
            | none => mdString today ++ " " ++ text).data ++
          (splitNl notes.data).drop p ∧
      ((p = 0 ∧
          ∀ l ∈ (splitNl notes.data).take 5, l.all pySpace = false) ∨
       (∃ pre blank post,
          (splitNl notes.data).take 5 = pre ++ blank :: post ∧
          blank.all pySpace = true ∧
          (∀ l ∈ pre, l.all pySpace = false) ∧
          p = pre.length + 1)) := by
  cases hfind : ((splitNl notes.data).take 5).findIdx?
      (fun l => l.all pySpace) with
  | none =>
    refine ⟨0, ?_, Or.inl ⟨rfl, ?_⟩⟩
    · simp only [add_note_notes, hfind, List.insertIdx_zero, data_asString]
      rw [splitNl_joinNl (by simp),
        List.flatMap_cons,
        flatMap_splitNl_sub (fun _ hx => hx)]
      simp
    · intro l hl
      exact List.findIdx?_eq_none_iff.mp hfind l hl
  | some i =>
    obtain ⟨hi, hblank, hprev⟩ :=
      List.findIdx?_eq_some_iff_getElem.mp hfind
    have hi5 : i < 5 := by
      have := List.length_take 5 (splitNl notes.data) ▸ hi
      omega
    have hiL : i < (splitNl notes.data).length := by
      have := List.length_take 5 (splitNl notes.data) ▸ hi
      omega
    have hle : i + 1 ≤ (splitNl notes.data).length := hiL
    refine ⟨i + 1, ?_, Or.inr
      ⟨((splitNl notes.data).take 5).take i,
       ((splitNl notes.data).take 5).get ⟨i, hi⟩,
       ((splitNl notes.data).take 5).drop (i + 1), ?_, ?_, ?_, ?_⟩⟩
    · simp only [add_note_notes, hfind, data_asString]
      rw [insertIdx_eq_take_cons_drop _ hle,
        splitNl_joinNl (by simp),
        List.flatMap_append, List.flatMap_cons,
        flatMap_splitNl_sub (List.take_subset _ _),
        flatMap_splitNl_sub (List.drop_subset _ _)]
      simp
    · rw [List.get_eq_getElem, List.getElem_cons_drop,
        List.take_append_drop]
    · simpa using hblank
    · intro l hl
      obtain ⟨j, hj, hlj⟩ := List.mem_iff_getElem.mp hl
      have hjlt : j < i := by
        have := List.length_take i ((splitNl notes.data).take 5) ▸ hj
        omega
      have : ((splitNl notes.data).take 5).take i ⊆
          (splitNl notes.data).take 5 := List.take_subset _ _
      rw [← hlj, List.getElem_take]
      have hnp := hprev j hjlt
      simpa using hnp
    · have : (((splitNl notes.data).take 5).take i).length = i := by
        rw [List.length_take]
        omega
      rw [this]

end AsanaTool
